import Mathlib

/-!
Verification of the channel_plus download core against its specification.

The development shallowly embeds the Python code of
src/channel_plus/core/downloader.py, src/channel_plus/utils/http_client.py and
the parts of src/channel_plus/core/models.py they use.  Files on disk are
modelled as an explicit map from path strings to file data; the resume-ledger
file is modelled separately as a single JSON-bearing slot; exceptions raised
by the environment (read errors, write failures, failed unlinks, HTTP errors)
are modelled as explicit outcome parameters.  Definitions come first, then
the theorems.
-/

namespace ChannelPlus

/-- Contents of one regular file: its bytes, plus a flag modelling an
exception raised by the environment when the file is opened and read
(the Python code catches such exceptions). -/
structure FileData where
  content : List Nat
  readError : Bool
deriving DecidableEq

/-- The audio files in the download directory, keyed by path string.
none means the path does not exist. -/
def FS : Type := String → Option FileData

/-- Path.unlink: remove the entry at a path. -/
def FS.erase (fs : FS) (p : String) : FS :=
  fun q => if q = p then none else fs q

/-- Writing a file at a path (open followed by a full write). -/
def FS.insert (fs : FS) (p : String) (fd : FileData) : FS :=
  fun q => if q = p then some fd else fs q

/-- Splitting a character list at slashes, as in str.split. -/
def splitSlash : List Char → List (List Char)
  | [] => [[]]
  | c :: rest =>
    match splitSlash rest with
    | [] => [[c]]
    | g :: gs => if c = '/' then [] :: g :: gs else (c :: g) :: gs

/-- Extension of the final path component, as computed by pathlib's suffix
property: the slice from the last dot of the name, provided that dot is
neither the first nor the last character of the name. -/
def pySuffix (p : String) : String :=
  let cs := (splitSlash p.toList).getLastD []
  let n := cs.length
  match ((List.range n).filter (fun i => cs.getD i ' ' = '.')).getLast? with
  | none => ""
  | some i => if 0 < i ∧ i < n - 1 then String.mk (cs.drop i) else ""

/-- Whitespace as stripped by str.strip (the ASCII whitespace actually
occurring in audio names). -/
def isSpaceChar (c : Char) : Bool :=
  c = ' ' || c = '\t' || c = '\n' || c = '\r'

/-- Python str.strip. -/
def pyStrip (s : String) : String :=
  String.mk (((s.toList.dropWhile isSpaceChar).reverse.dropWhile isSpaceChar).reverse)

/-- ASCII lower-casing of one character, as str.lower acts on extension
characters. -/
def lowerChar (c : Char) : Char :=
  if 'A' ≤ c ∧ c ≤ 'Z' then Char.ofNat (c.toNat + 32) else c

/-- Python str.lower. -/
def lowerString (s : String) : String :=
  String.mk (s.toList.map lowerChar)

/-- Python str.replace for a single-character pattern, the only form the
code uses. -/
def replaceChar (a b : Char) (s : String) : String :=
  String.mk (s.toList.map (fun c => if c = a then b else c))

/-- Audio file metadata used by the downloader (models.AudioInfo; only the
fields the download core reads). -/
structure AudioInfo where
  key : String
  name : String
deriving DecidableEq

/-- One episode (models.Episode; only the fields the download core reads). -/
structure Episode where
  part : Nat
  name : String
  audio : AudioInfo
deriving DecidableEq

/-- Zero padding for the percent-05d format used by safe_filename. -/
def padZero5 (n : Nat) : String :=
  let s := toString n
  if s.length < 5 then String.mk (List.replicate (5 - s.length) '0') ++ s else s

/-- Episode.safe_filename: the original audio name when it is nonempty and
not all whitespace, otherwise a name synthesized from part and title. -/
def safe_filename (e : Episode) : String :=
  if e.audio.name ≠ "" ∧ pyStrip e.audio.name ≠ "" then e.audio.name
  else padZero5 e.part ++ "_" ++ replaceChar '\\' '_' (replaceChar '/' '_' e.name) ++ ".mp3"

/-- ChannelPlusDownloader.min_file_size, set in the constructor. -/
def min_file_size : Nat := 1024

/-- Bytes of the literal b-string I-D-3. -/
def ID3 : List Nat := [0x49, 0x44, 0x33]

/-- Bytes of the literal b-string ff-fb (an MPEG frame sync pattern). -/
def SYNC : List Nat := [0xff, 0xfb]

/-- Bytes of the literal b-string f-t-y-p. -/
def FTYP : List Nat := [0x66, 0x74, 0x79, 0x70]

/-- Python bytes containment test (needle occurring contiguously in hay). -/
def hasSub : List Nat → List Nat → Bool
  | needle, [] => needle.isEmpty
  | needle, h :: t => needle.isPrefixOf (h :: t) || hasSub needle t

/-- Recognized audio extensions checked by is_file_complete. -/
def audioExts : List String := [".mp3", ".wav", ".m4a"]

/-- ChannelPlusDownloader.is_file_complete.  The episode argument is kept
for fidelity with the source signature; the body never uses it. -/
def is_file_complete (fs : FS) (file_path : String) (_episode : Episode) : Bool :=
  match fs file_path with
  | none => false
  | some fd =>
    if fd.content.length < min_file_size then false
    else if lowerString (pySuffix file_path) ∈ audioExts then
      if fd.readError then false
      else
        let header := fd.content.take 10
        if ID3.isPrefixOf header then true
        else if SYNC.isPrefixOf header then true
        else if hasSub FTYP header then true
        else false
    else true

/-- Specification-side predicate: the leading bytes carry a recognized
signature (ID3 tag, MPEG frame sync, or an ftyp atom fragment). -/
def hasAudioSignature (h : List Nat) : Bool :=
  ID3.isPrefixOf h || SYNC.isPrefixOf h || hasSub FTYP h

/-- Parsed JSON values, as produced by json.load and consumed by json.dump. -/
inductive Json where
  | null : Json
  | bool (b : Bool) : Json
  | num (n : Int) : Json
  | str (s : String) : Json
  | arr (elems : List Json) : Json
  | obj (fields : List (String × Json)) : Json

/-- Python dict.get with default none: first binding of the key. -/
def jGet (j : Json) (key : String) : Option Json :=
  match j with
  | .obj fields => fields.lookup key
  | _ => none

/-- State of the hidden resume-ledger file inside the download directory.
absent: the file does not exist; corrupt: the file holds text that is not
valid JSON (for instance after a write that was interrupted midway);
valid j: the file holds the serialized form of j. -/
inductive LedgerFile where
  | absent : LedgerFile
  | corrupt : LedgerFile
  | valid (j : Json) : LedgerFile

/-- Environment outcome of one save_resume_state call: the write may
succeed, fail before the ledger file is opened (mkdir or open raising), or
fail after open has truncated the file while json.dump is writing. -/
inductive WriteOutcome where
  | success : WriteOutcome
  | failBeforeOpen : WriteOutcome
  | failMidWrite : WriteOutcome
deriving DecidableEq

/-- The resume_data dictionary built by save_resume_state.  The timestamp
produced by datetime.now().isoformat() is passed in as a string. -/
def resumeJson (completed_files : List String) (now : String) (concurrent_downloads : Nat) : Json :=
  .obj [("completed_files", .arr (completed_files.map .str)),
        ("last_updated", .str now),
        ("config", .obj [("concurrent_downloads", .num concurrent_downloads),
                         ("total_episodes", .num completed_files.length)])]

/-- ChannelPlusDownloader.save_resume_state.  Every exception is caught and
logged, so the call always returns (the function is total); its only effect
is on the ledger file, and depends on where the environment failed: before
the file was opened the prior content survives, during json.dump the file
has already been truncated and holds a partial write. -/
def save_resume_state (f : LedgerFile) (completed_files : List String)
    (now : String) (concurrent_downloads : Nat) (o : WriteOutcome) : LedgerFile :=
  match o with
  | .failBeforeOpen => f
  | .failMidWrite => .corrupt
  | .success => .valid (resumeJson completed_files now concurrent_downloads)

/-- Dictionary returned by load_resume_state when the ledger file is
missing or unreadable. -/
def defaultResume : Json :=
  .obj [("completed_files", .arr []), ("last_updated", .null)]

/-- ChannelPlusDownloader.load_resume_state: returns the parsed dictionary;
a missing file, a JSON parse error, or a non-dictionary payload (whose
attribute access raises inside the try block) all fall back to the default
dictionary with an empty completed_files list. -/
def load_resume_state (f : LedgerFile) : Json :=
  match f with
  | .absent => defaultResume
  | .corrupt => defaultResume
  | .valid j =>
    match j with
    | .obj fields => .obj fields
    | _ => defaultResume

/-- The completed-file set read out of a resume dictionary, as in
set(resume_state.get(completed_files-key, [])).  Non-string entries can
never equal a relative path string, so only the string entries matter for
membership; they are kept in order. -/
def completedSetOf (d : Json) : List String :=
  match jGet d "completed_files" with
  | some (.arr xs) => xs.filterMap (fun x => match x with | .str s => some s | _ => none)
  | _ => []

/-- Output of filter_episodes_for_download: the three returned lists plus
the final filesystem and the downloader's in-memory completed_files set
(modelled as a duplicate-free list). -/
structure FilterOutput where
  to_download : List Episode
  existing : List Episode
  invalid : List Episode
  fs : FS
  completed : List String

/-- Loop body of filter_episodes_for_download, over the remaining episodes.
The filesystem is keyed by the path of each file relative to the download
directory, which for an episode is exactly its safe_filename (the code
joins config.path with safe_filename and immediately relativizes back).
unlinkOk tells whether a Path.unlink call at a given path succeeds; when it
fails the exception is caught and logged and the loop continues. -/
def filterGo (ledgerSet : List String) (unlinkOk : String → Bool) :
    List Episode → FS → List String → FilterOutput
  | [], fs, completed => ⟨[], [], [], fs, completed⟩
  | e :: rest, fs, completed =>
    if safe_filename e ∈ ledgerSet ∧ is_file_complete fs (safe_filename e) e = true then
      let r := filterGo ledgerSet unlinkOk rest fs (completed.insert (safe_filename e))
      ⟨r.to_download, e :: r.existing, r.invalid, r.fs, r.completed⟩
    else if (fs (safe_filename e)).isSome then
      if is_file_complete fs (safe_filename e) e = true then
        let r := filterGo ledgerSet unlinkOk rest fs (completed.insert (safe_filename e))
        ⟨r.to_download, e :: r.existing, r.invalid, r.fs, r.completed⟩
      else
        let r := filterGo ledgerSet unlinkOk rest
          (if unlinkOk (safe_filename e) then fs.erase (safe_filename e) else fs) completed
        ⟨e :: r.to_download, r.existing, e :: r.invalid, r.fs, r.completed⟩
    else
      let r := filterGo ledgerSet unlinkOk rest fs completed
      ⟨e :: r.to_download, r.existing, r.invalid, r.fs, r.completed⟩

/-- ChannelPlusDownloader.filter_episodes_for_download.  ledger is the
state of the resume file, completed0 the in-memory completed_files set at
entry (empty in a fresh downloader). -/
def filter_episodes_for_download (ledger : LedgerFile) (unlinkOk : String → Bool)
    (fs : FS) (completed0 : List String) (episodes : List Episode)
    (force_redownload : Bool) : FilterOutput :=
  if force_redownload then ⟨episodes, [], [], fs, completed0⟩
  else filterGo (completedSetOf (load_resume_state ledger)) unlinkOk episodes fs completed0

/-- Body of a streaming GET as seen by download_file: the optional
Content-Length header value, the chunks delivered by iter_chunked before
any failure, and whether the stream then raised instead of ending. -/
structure Response where
  contentLength : Option Nat
  chunks : List (List Nat)
  streamError : Bool
deriving DecidableEq

/-- ChannelPlusHTTPClient.download_file.  The req argument is the outcome
of the awaited _make_request_with_retry call: error means that call raised
(all retries exhausted or a fatal status), ok carries the streamed body.
On the success path the delivered chunks are written to dest; on any
caught exception a partial or stale file at dest is unlinked and false is
returned. -/
def download_file (fs : FS) (dest : String) (req : Except Unit Response) : Bool × FS :=
  match req with
  | .error _ =>
    (false, if (fs dest).isSome then fs.erase dest else fs)
  | .ok resp =>
    let written := FS.insert fs dest ⟨resp.chunks.flatten, false⟩
    if resp.streamError then
      (false, if (written dest).isSome then written.erase dest else written)
    else
      (true, written)

/-- Specification-side predicate: the transfer ended in a terminal
failure (the request raised after its retry chain, or the body stream
broke midway). -/
def terminalFailure : Except Unit Response → Bool
  | .error _ => true
  | .ok r => r.streamError

/-- Outcome of one HTTP attempt as seen by _make_request_with_retry: a
response with the given status code, or a raised connection/timeout
error. -/
inductive AttemptOutcome where
  | status (code : Nat) : AttemptOutcome
  | connError : AttemptOutcome
deriving DecidableEq

/-- Exception surfaced by _make_request_with_retry when it fails: the
raise_for_status error of the last erroring response, the last
connection/timeout error, or the generic client error raised when the
loop exhausts without any recorded exception. -/
inductive RetryError where
  | httpStatus (code : Nat) : RetryError
  | connTimeout : RetryError
  | generic : RetryError
deriving DecidableEq

/-- Observable result of _make_request_with_retry: the returned response
(identified by the index of the attempt that produced it) or the raised
exception, together with how many attempts were made and the sleep
durations (in seconds) performed between attempts. -/
structure RetryResult where
  outcome : Except RetryError Nat
  attempts : Nat
  sleeps : List Nat

/-- Status codes retried with backoff by _make_request_with_retry. -/
def RETRYABLE : List Nat := [429, 502, 503, 504]

/-- Loop of _make_request_with_retry.  fuel counts the remaining
iterations of the range loop (fuel plus attempt equals retry_attempts on
canonical calls); lastExc is the last_exception variable.  A 200 returns;
a retryable status sleeps two-to-the-attempt seconds and continues; any
other status of at least 400 makes raise_for_status raise, which the
except clause catches, recording the exception and sleeping (capped at 30
seconds) unless this was the final attempt; a non-200 status below 400
falls through the status checks and the loop simply moves on; a
connection or timeout error behaves like a caught exception.  When the
loop exhausts, the recorded exception (or a generic error) is raised. -/
def retryGo (env : Nat → AttemptOutcome) (n : Nat) :
    Nat → Nat → Option RetryError → List Nat → RetryResult
  | 0, _, lastExc, sleeps => ⟨.error (lastExc.getD .generic), n, sleeps⟩
  | fuel + 1, attempt, lastExc, sleeps =>
    match env attempt with
    | .status code =>
      if code = 200 then ⟨.ok attempt, attempt + 1, sleeps⟩
      else if code ∈ RETRYABLE then
        retryGo env n fuel (attempt + 1) lastExc (sleeps ++ [2 ^ attempt])
      else if 400 ≤ code then
        if attempt < n - 1 then
          retryGo env n fuel (attempt + 1) (some (.httpStatus code))
            (sleeps ++ [min (2 ^ attempt) 30])
        else ⟨.error (.httpStatus code), attempt + 1, sleeps⟩
      else
        retryGo env n fuel (attempt + 1) lastExc sleeps
    | .connError =>
      if attempt < n - 1 then
        retryGo env n fuel (attempt + 1) (some .connTimeout)
          (sleeps ++ [min (2 ^ attempt) 30])
      else ⟨.error .connTimeout, attempt + 1, sleeps⟩

/-- ChannelPlusHTTPClient._make_request_with_retry over an environment
assigning each attempt index its outcome. -/
def make_request_with_retry (env : Nat → AttemptOutcome) (retry_attempts : Nat) : RetryResult :=
  retryGo env retry_attempts retry_attempts 0 none []

/-- Attempt environment answering 404 on the first attempt and 200
afterwards. -/
def env404 : Nat → AttemptOutcome :=
  fun k => if k = 0 then .status 404 else .status 200

/-- Attempt environment answering 503 on the first two attempts and 200
afterwards. -/
def env503 : Nat → AttemptOutcome :=
  fun k => if k < 2 then .status 503 else .status 200

/-- Attempt environment answering 503 on every attempt. -/
def env503all : Nat → AttemptOutcome :=
  fun _ => .status 503

/-- Sample episode whose audio file on disk is a well-formed MP3. -/
def epOne : Episode := ⟨1, "Lesson One", ⟨"key1", "ep1.mp3"⟩⟩

/-- Sample episode whose audio file on disk is a 3-byte stub. -/
def epTwo : Episode := ⟨2, "Lesson Two", ⟨"key2", "ep2.mp3"⟩⟩

/-- Sample download directory: a complete 1024-byte MP3 with an ID3 header
for epOne and a 3-byte stub for epTwo. -/
def fsSample : FS := fun p =>
  if p = "ep1.mp3" then some ⟨ID3 ++ List.replicate 1021 0, false⟩
  else if p = "ep2.mp3" then some ⟨[0, 0, 0], false⟩
  else none

/-- Sample ledger file recording epOne's file as completed. -/
def ledgerSample : LedgerFile := .valid (resumeJson ["ep1.mp3"] "2024-01-01T00:00:00" 3)

/-! ## Theorems -/

/-- The validator only inspects the filesystem at the queried path, and
ignores the episode argument. -/
theorem is_file_complete_congr {fs fs2 : FS} {p : String} (e e2 : Episode)
    (h : fs p = fs2 p) : is_file_complete fs p e = is_file_complete fs2 p e2 := by
  unfold is_file_complete
  rw [h]

/-- A path that validates exists. -/
theorem is_file_complete_isSome {fs : FS} {p : String} {e : Episode}
    (h : is_file_complete fs p e = true) : (fs p).isSome = true := by
  unfold is_file_complete at h
  cases hp : fs p with
  | none => rw [hp] at h; exact Bool.noConfusion h
  | some fd => rfl

/-- A missing path never validates. -/
theorem is_file_complete_none {fs : FS} {p : String} (e : Episode)
    (h : fs p = none) : is_file_complete fs p e = false := by
  unfold is_file_complete
  rw [h]

/-- Unlinking a path removes it. -/
theorem FS.erase_same (fs : FS) (p : String) : (fs.erase p) p = none := by
  simp [FS.erase]

/-- Unlinking a path leaves other paths alone. -/
theorem FS.erase_other (fs : FS) {p q : String} (h : q ≠ p) : (fs.erase p) q = fs q := by
  simp [FS.erase, h]

/-- C1: is_file_complete returns true iff the path exists, the size is at
least 1024 bytes, and, when the extension is a recognized audio extension,
the read succeeds and the first bytes carry a recognized audio signature;
a missing path, a small file, other leading bytes, or a read error yield
false, and for other extensions the size gate alone decides. -/
theorem is_file_complete_iff (fs : FS) (p : String) (ep : Episode) :
    is_file_complete fs p ep = true ↔
      ∃ fd, fs p = some fd ∧ 1024 ≤ fd.content.length ∧
        (lowerString (pySuffix p) ∈ audioExts →
          fd.readError = false ∧ hasAudioSignature (fd.content.take 10) = true) := by
  unfold is_file_complete
  cases h : fs p with
  | none => simp
  | some fd =>
    simp only [Option.some.injEq, hasAudioSignature, min_file_size]
    constructor
    · intro hc
      refine ⟨fd, rfl, ?_, ?_⟩
      · by_cases hlen : fd.content.length < 1024
        · simp [hlen] at hc
        · omega
      · intro hext
        by_cases hlen : fd.content.length < 1024
        · simp [hlen] at hc
        · simp only [if_neg hlen, if_pos hext] at hc
          cases hre : fd.readError with
          | true => simp [hre] at hc
          | false =>
            refine ⟨rfl, ?_⟩
            simp only [hre, Bool.false_eq_true, if_false] at hc
            by_cases h1 : ID3.isPrefixOf (fd.content.take 10)
            · simp [h1]
            · by_cases h2 : SYNC.isPrefixOf (fd.content.take 10)
              · simp [h2]
              · by_cases h3 : hasSub FTYP (fd.content.take 10)
                · simp [h3]
                · simp [h1, h2, h3] at hc
    · rintro ⟨fdv, hfdv, hlen, hsig⟩
      cases hfdv
      have hlen2 : ¬ fd.content.length < 1024 := by omega
      simp only [if_neg hlen2]
      by_cases hext : lowerString (pySuffix p) ∈ audioExts
      · obtain ⟨hre, hsig2⟩ := hsig hext
        simp only [if_pos hext, hre, Bool.false_eq_true, if_false]
        rcases Bool.or_eq_true_iff.mp hsig2 with h | h3
        · rcases Bool.or_eq_true_iff.mp h with h1 | h2
          · simp [h1]
          · by_cases h1 : ID3.isPrefixOf (fd.content.take 10) <;> simp [h1, h2]
        · by_cases h1 : ID3.isPrefixOf (fd.content.take 10) <;>
            by_cases h2 : SYNC.isPrefixOf (fd.content.take 10) <;>
              simp [h1, h2, h3]
      · simp [hext]

/-- C2: with force set, the partition returns the whole input as
to_download and empty existing and invalid lists, leaves the filesystem
and in-memory set untouched, and its value is the same whatever the ledger
file and filesystem hold, since they are never consulted. -/
theorem filter_force_returns_all (ledger : LedgerFile) (unlinkOk : String → Bool)
    (fs : FS) (completed0 : List String) (episodes : List Episode) :
    filter_episodes_for_download ledger unlinkOk fs completed0 episodes true =
      ⟨episodes, [], [], fs, completed0⟩ :=
  rfl

/-- Extracting the string entries back out of a list of JSON strings. -/
theorem filterMap_str_map (l : List String) :
    (l.map Json.str).filterMap
        (fun x => match x with | .str s => some s | _ => none) = l := by
  induction l with
  | nil => rfl
  | cons a t ih => simp only [List.map_cons, List.filterMap_cons, ih]

/-- C5: saving a completed set and loading it back yields exactly the
saved collection of filenames (in particular the same set). -/
theorem resume_round_trip (f : LedgerFile) (completed : List String)
    (now : String) (concurrent_downloads : Nat) :
    completedSetOf (load_resume_state
        (save_resume_state f completed now concurrent_downloads .success)) = completed := by
  show (completed.map Json.str).filterMap _ = completed
  exact filterMap_str_map completed

/-- C6 counterexample: a write that fails while json.dump is running has
already truncated the ledger file, so the prior ledger is replaced by a
corrupt partial one and a later load sees an empty completed set; the
write is therefore not atomic with respect to the prior content. -/
theorem save_midwrite_clobbers_prior_ledger :
    save_resume_state (.valid (resumeJson ["a.mp3"] "2024-01-01T00:00:00" 3))
        ["a.mp3", "b.mp3"] "2024-01-02T00:00:00" 3 .failMidWrite ≠
      .valid (resumeJson ["a.mp3"] "2024-01-01T00:00:00" 3) ∧
    save_resume_state (.valid (resumeJson ["a.mp3"] "2024-01-01T00:00:00" 3))
        ["a.mp3", "b.mp3"] "2024-01-02T00:00:00" 3 .failMidWrite = .corrupt ∧
    completedSetOf (load_resume_state (save_resume_state
        (.valid (resumeJson ["a.mp3"] "2024-01-01T00:00:00" 3))
        ["a.mp3", "b.mp3"] "2024-01-02T00:00:00" 3 .failMidWrite)) = [] := by
  refine ⟨?_, rfl, rfl⟩
  intro h
  exact LedgerFile.noConfusion h

/-- C6 amended: save_resume_state swallows every write failure and always
returns; a failure before the file is opened leaves the prior ledger
intact, a successful write stores the new resume dictionary, and a failure
during json.dump leaves a corrupt partial file, which a later load treats
as an empty completed set. -/
theorem save_resume_state_cases (f : LedgerFile) (completed : List String)
    (now : String) (concurrent_downloads : Nat) :
    save_resume_state f completed now concurrent_downloads .failBeforeOpen = f ∧
    save_resume_state f completed now concurrent_downloads .success =
      .valid (resumeJson completed now concurrent_downloads) ∧
    save_resume_state f completed now concurrent_downloads .failMidWrite = .corrupt ∧
    completedSetOf (load_resume_state .corrupt) = [] :=
  ⟨rfl, rfl, rfl, rfl⟩

/-- Partition shape of the reconciliation loop: existing and to_download
are order-preserving selections of the input that together exhaust it, and
invalid is an order-preserving selection of to_download. -/
theorem filterGo_partition (L : List String) (uok : String → Bool) :
    ∀ (episodes : List Episode) (fs : FS) (completed : List String),
      (filterGo L uok episodes fs completed).existing.Sublist episodes ∧
      (filterGo L uok episodes fs completed).to_download.Sublist episodes ∧
      (filterGo L uok episodes fs completed).invalid.Sublist
        (filterGo L uok episodes fs completed).to_download ∧
      (filterGo L uok episodes fs completed).existing.length +
        (filterGo L uok episodes fs completed).to_download.length = episodes.length ∧
      ((filterGo L uok episodes fs completed).existing ++
        (filterGo L uok episodes fs completed).to_download).Perm episodes := by
  intro episodes
  induction episodes with
  | nil =>
    intro fs completed
    exact ⟨List.Sublist.refl [], List.Sublist.refl [], List.Sublist.refl [], rfl, List.Perm.refl []⟩
  | cons e rest ih =>
    intro fs completed
    simp only [filterGo]
    split
    · obtain ⟨s1, s2, s3, s4, s5⟩ := ih fs (completed.insert (safe_filename e))
      exact ⟨s1.cons₂ e, s2.cons e, s3,
        by simp only [List.length_cons]; omega, s5.cons e⟩
    · split
      · split
        · obtain ⟨s1, s2, s3, s4, s5⟩ := ih fs (completed.insert (safe_filename e))
          exact ⟨s1.cons₂ e, s2.cons e, s3,
            by simp only [List.length_cons]; omega, s5.cons e⟩
        · obtain ⟨s1, s2, s3, s4, s5⟩ := ih
            (if uok (safe_filename e) then fs.erase (safe_filename e) else fs) completed
          exact ⟨s1.cons e, s2.cons₂ e, s3.cons₂ e,
            by simp only [List.length_cons]; omega,
            List.perm_middle.trans (s5.cons e)⟩
      · obtain ⟨s1, s2, s3, s4, s5⟩ := ih fs completed
        exact ⟨s1.cons e, s2.cons₂ e, s3.cons e,
          by simp only [List.length_cons]; omega,
          List.perm_middle.trans (s5.cons e)⟩

/-- C10: with force unset, each input episode lands in exactly one of
existing and to_download (their concatenation is a permutation of the
input and their lengths sum to the input length), input order is preserved
within each output list, and every episode classified invalid also appears
in to_download. -/
theorem filter_partition_properties (ledger : LedgerFile) (uok : String → Bool)
    (fs : FS) (completed0 : List String) (episodes : List Episode) :
    (filter_episodes_for_download ledger uok fs completed0 episodes false).existing.Sublist
        episodes ∧
    (filter_episodes_for_download ledger uok fs completed0 episodes false).to_download.Sublist
        episodes ∧
    (filter_episodes_for_download ledger uok fs completed0 episodes false).invalid.Sublist
        (filter_episodes_for_download ledger uok fs completed0 episodes false).to_download ∧
    (filter_episodes_for_download ledger uok fs completed0 episodes false).existing.length +
        (filter_episodes_for_download ledger uok fs completed0 episodes false).to_download.length =
        episodes.length ∧
    ((filter_episodes_for_download ledger uok fs completed0 episodes false).existing ++
        (filter_episodes_for_download ledger uok fs completed0 episodes false).to_download).Perm
        episodes :=
  filterGo_partition (completedSetOf (load_resume_state ledger)) uok episodes fs completed0

/-- An episode that is ledgered and whose file validates goes to existing
and never to to_download, under any interleaving with other episodes: the
loop only ever deletes files that fail validation, so the episode's entry
survives untouched. -/
theorem filterGo_ledgered_valid (L : List String) (uok : String → Bool) (ep : Episode)
    (fs0 : FS) (hL : safe_filename ep ∈ L)
    (hv : is_file_complete fs0 (safe_filename ep) ep = true) :
    ∀ (episodes : List Episode) (fs : FS) (completed : List String),
      fs (safe_filename ep) = fs0 (safe_filename ep) →
      (ep ∈ episodes → ep ∈ (filterGo L uok episodes fs completed).existing) ∧
      ep ∉ (filterGo L uok episodes fs completed).to_download := by
  intro episodes
  induction episodes with
  | nil =>
    intro fs completed hfs
    exact ⟨fun h => absurd h (List.not_mem_nil ep), List.not_mem_nil ep⟩
  | cons e rest ih =>
    intro fs completed hfs
    have hveq : is_file_complete fs (safe_filename ep) ep = true :=
      (is_file_complete_congr ep ep hfs).trans hv
    simp only [filterGo]
    split
    · obtain ⟨ih1, ih2⟩ := ih fs (completed.insert (safe_filename e)) hfs
      constructor
      · intro hmem
        rcases List.mem_cons.mp hmem with heq | hmem2
        · exact heq ▸ List.mem_cons_self _ _
        · exact List.mem_cons_of_mem _ (ih1 hmem2)
      · exact ih2
    · next h1 =>
      split
      · split
        · obtain ⟨ih1, ih2⟩ := ih fs (completed.insert (safe_filename e)) hfs
          constructor
          · intro hmem
            rcases List.mem_cons.mp hmem with heq | hmem2
            · exact absurd ⟨heq ▸ hL, heq ▸ hveq⟩ h1
            · exact List.mem_cons_of_mem _ (ih1 hmem2)
          · exact ih2
        · next h3 =>
          have hfne : safe_filename e ≠ safe_filename ep := by
            intro hfeq
            apply h3
            rw [hfeq]
            exact (is_file_complete_congr e ep rfl).trans hveq
          have hfs2 :
              (if uok (safe_filename e) then fs.erase (safe_filename e) else fs)
                  (safe_filename ep) = fs0 (safe_filename ep) := by
            by_cases hu : uok (safe_filename e) = true
            · rw [if_pos hu, FS.erase_other fs (Ne.symm hfne)]
              exact hfs
            · rw [if_neg hu]
              exact hfs
          obtain ⟨ih1, ih2⟩ := ih
            (if uok (safe_filename e) then fs.erase (safe_filename e) else fs) completed hfs2
          constructor
          · intro hmem
            rcases List.mem_cons.mp hmem with heq | hmem2
            · exact absurd (congrArg safe_filename heq).symm hfne
            · exact ih1 hmem2
          · intro hmem
            rcases List.mem_cons.mp hmem with heq | hmem2
            · exact hfne (congrArg safe_filename heq).symm
            · exact ih2 hmem2
      · next h2 =>
        have hfne : safe_filename e ≠ safe_filename ep := by
          intro hfeq
          apply h2
          rw [hfeq, hfs]
          exact is_file_complete_isSome hv
        obtain ⟨ih1, ih2⟩ := ih fs completed hfs
        constructor
        · intro hmem
          rcases List.mem_cons.mp hmem with heq | hmem2
          · exact absurd (congrArg safe_filename heq).symm hfne
          · exact ih1 hmem2
        · intro hmem
          rcases List.mem_cons.mp hmem with heq | hmem2
          · exact hfne (congrArg safe_filename heq).symm
          · exact ih2 hmem2

/-- C3: an episode whose target filename is in the loaded ledger's
completed set and whose on-disk file passes the validator is placed in
existing and never in to_download, so a repeated run with no filesystem
changes does not re-download it. -/
theorem filter_ledgered_valid_kept (ledger : LedgerFile) (uok : String → Bool)
    (fs : FS) (completed0 : List String) (episodes : List Episode) (ep : Episode)
    (hmem : ep ∈ episodes)
    (hL : safe_filename ep ∈ completedSetOf (load_resume_state ledger))
    (hv : is_file_complete fs (safe_filename ep) ep = true) :
    ep ∈ (filter_episodes_for_download ledger uok fs completed0 episodes false).existing ∧
    ep ∉ (filter_episodes_for_download ledger uok fs completed0 episodes false).to_download := by
  have h := filterGo_ledgered_valid (completedSetOf (load_resume_state ledger)) uok ep fs hL hv
    episodes fs completed0 rfl
  exact ⟨h.1 hmem, h.2⟩

set_option maxRecDepth 40000 in
/-- C3 witness: in the sample state, epOne is ledgered and its file
validates, and the partition keeps it in existing and out of
to_download. -/
theorem filter_ledgered_valid_kept_witness :
    epOne ∈ (filter_episodes_for_download ledgerSample (fun _ => true) fsSample []
        [epOne, epTwo] false).existing ∧
    epOne ∉ (filter_episodes_for_download ledgerSample (fun _ => true) fsSample []
        [epOne, epTwo] false).to_download :=
  filter_ledgered_valid_kept ledgerSample (fun _ => true) fsSample [] [epOne, epTwo] epOne
    (by decide) (by decide) (by decide)

/-- Behaviour of the reconciliation loop around one episode whose file is
present but invalid in the starting filesystem, provided no other episode
shares its filename: its filename is never added to the in-memory
completed set, the episode always reaches to_download, it is classified
invalid whenever its entry is still intact when reached, and when unlink
succeeds its file ends up deleted. -/
theorem filterGo_invalid_file (L : List String) (uok : String → Bool) (ep : Episode)
    (fs0 : FS) (hex : (fs0 (safe_filename ep)).isSome = true)
    (hbad : is_file_complete fs0 (safe_filename ep) ep = false) :
    ∀ (episodes : List Episode) (fs : FS) (completed : List String),
      (∀ e2, e2 ∈ episodes → safe_filename e2 = safe_filename ep → e2 = ep) →
      (fs (safe_filename ep) = fs0 (safe_filename ep) ∨ fs (safe_filename ep) = none) →
      safe_filename ep ∉ completed →
      safe_filename ep ∉ (filterGo L uok episodes fs completed).completed ∧
      (ep ∈ episodes → ep ∈ (filterGo L uok episodes fs completed).to_download) ∧
      (ep ∈ episodes → fs (safe_filename ep) = fs0 (safe_filename ep) →
        ep ∈ (filterGo L uok episodes fs completed).invalid) ∧
      (uok (safe_filename ep) = true →
        (ep ∈ episodes ∨ fs (safe_filename ep) = none) →
        (filterGo L uok episodes fs completed).fs (safe_filename ep) = none) := by
  intro episodes
  induction episodes with
  | nil =>
    intro fs completed _ _ hnc
    refine ⟨hnc, fun h => absurd h (List.not_mem_nil ep),
      fun h => absurd h (List.not_mem_nil ep), ?_⟩
    intro _ hor
    rcases hor with h | h
    · exact absurd h (List.not_mem_nil ep)
    · exact h
  | cons e rest ih =>
    intro fs completed huniq hdi hnc
    have huniq2 : ∀ e2, e2 ∈ rest → safe_filename e2 = safe_filename ep → e2 = ep :=
      fun e2 h2 => huniq e2 (List.mem_cons_of_mem e h2)
    by_cases hfeq : safe_filename e = safe_filename ep
    · have he : e = ep := huniq e (List.mem_cons_self e rest) hfeq
      subst he
      rcases hdi with hfs | hfs
      · have hvfalse : is_file_complete fs (safe_filename e) e = false :=
          (is_file_complete_congr e e hfs).trans hbad
        have hn1 : ¬ (safe_filename e ∈ L ∧
            is_file_complete fs (safe_filename e) e = true) := by
          intro h
          rw [h.2] at hvfalse
          exact Bool.noConfusion hvfalse
        have hs2 : (fs (safe_filename e)).isSome = true := by rw [hfs]; exact hex
        have hn3 : ¬ is_file_complete fs (safe_filename e) e = true := by
          intro h
          rw [h] at hvfalse
          exact Bool.noConfusion hvfalse
        simp only [filterGo, if_neg hn1, if_pos hs2, if_neg hn3]
        by_cases hu : uok (safe_filename e) = true
        · rw [if_pos hu]
          obtain ⟨ihnc, ihtd, ihinv, ihfs⟩ := ih (fs.erase (safe_filename e)) completed huniq2
            (Or.inr (FS.erase_same fs (safe_filename e))) hnc
          refine ⟨ihnc, fun _ => List.mem_cons_self _ _, fun _ _ => List.mem_cons_self _ _, ?_⟩
          intro hu2 _
          exact ihfs hu2 (Or.inr (FS.erase_same fs (safe_filename e)))
        · rw [if_neg hu]
          obtain ⟨ihnc, ihtd, ihinv, ihfs⟩ := ih fs completed huniq2 (Or.inl hfs) hnc
          refine ⟨ihnc, fun _ => List.mem_cons_self _ _, fun _ _ => List.mem_cons_self _ _, ?_⟩
          intro hu2 _
          exact absurd hu2 hu
      · have hn1 : ¬ (safe_filename e ∈ L ∧
            is_file_complete fs (safe_filename e) e = true) := by
          intro h
          have := (is_file_complete_none e hfs).symm.trans h.2
          exact Bool.noConfusion this
        have hn2 : ¬ ((fs (safe_filename e)).isSome = true) := by
          rw [hfs]
          exact fun h => Bool.noConfusion h
        simp only [filterGo, if_neg hn1, if_neg hn2]
        obtain ⟨ihnc, ihtd, ihinv, ihfs⟩ := ih fs completed huniq2 (Or.inr hfs) hnc
        refine ⟨ihnc, fun _ => List.mem_cons_self _ _, ?_, ?_⟩
        · intro _ hfseq
          exfalso
          rw [hfs] at hfseq
          rw [← hfseq] at hex
          exact Bool.noConfusion hex
        · intro hu2 _
          exact ihfs hu2 (Or.inr hfs)
    · have hepne : ep ≠ e := fun h => hfeq (congrArg safe_filename h.symm)
      have hmemr : ep ∈ e :: rest → ep ∈ rest := by
        intro hm
        rcases List.mem_cons.mp hm with h | h
        · exact absurd h hepne
        · exact h
      have hnc2 : safe_filename ep ∉ completed.insert (safe_filename e) := by
        rw [List.mem_insert_iff]
        intro h
        rcases h with h | h
        · exact hfeq h.symm
        · exact hnc h
      simp only [filterGo]
      split
      · obtain ⟨ihnc, ihtd, ihinv, ihfs⟩ := ih fs (completed.insert (safe_filename e))
          huniq2 hdi hnc2
        refine ⟨ihnc, fun hm => ihtd (hmemr hm), fun hm hf => ihinv (hmemr hm) hf, ?_⟩
        intro hu2 hor
        apply ihfs hu2
        rcases hor with h | h
        · exact Or.inl (hmemr h)
        · exact Or.inr h
      · split
        · split
          · obtain ⟨ihnc, ihtd, ihinv, ihfs⟩ := ih fs (completed.insert (safe_filename e))
              huniq2 hdi hnc2
            refine ⟨ihnc, fun hm => ihtd (hmemr hm), fun hm hf => ihinv (hmemr hm) hf, ?_⟩
            intro hu2 hor
            apply ihfs hu2
            rcases hor with h | h
            · exact Or.inl (hmemr h)
            · exact Or.inr h
          · have hfs2eq : (if uok (safe_filename e) then fs.erase (safe_filename e) else fs)
                (safe_filename ep) = fs (safe_filename ep) := by
              by_cases hu : uok (safe_filename e) = true
              · rw [if_pos hu]
                exact FS.erase_other fs (Ne.symm hfeq)
              · rw [if_neg hu]
            obtain ⟨ihnc, ihtd, ihinv, ihfs⟩ := ih
              (if uok (safe_filename e) then fs.erase (safe_filename e) else fs) completed
              huniq2 (by rw [hfs2eq]; exact hdi) hnc
            refine ⟨ihnc, ?_, ?_, ?_⟩
            · intro hm
              exact List.mem_cons_of_mem e (ihtd (hmemr hm))
            · intro hm hf
              exact List.mem_cons_of_mem e (ihinv (hmemr hm) (by rw [hfs2eq]; exact hf))
            · intro hu2 hor
              apply ihfs hu2
              rcases hor with h | h
              · exact Or.inl (hmemr h)
              · exact Or.inr (by rw [hfs2eq]; exact h)
        · obtain ⟨ihnc, ihtd, ihinv, ihfs⟩ := ih fs completed huniq2 hdi hnc
          refine ⟨ihnc, fun hm => List.mem_cons_of_mem e (ihtd (hmemr hm)),
            fun hm hf => ihinv (hmemr hm) hf, ?_⟩
          intro hu2 hor
          apply ihfs hu2
          rcases hor with h | h
          · exact Or.inl (hmemr h)
          · exact Or.inr h

/-- C4: an episode whose target file exists but fails the validator (and
whose filename no other episode shares) is classified invalid, added to
to_download, its filename is not added to the in-memory completed set,
and when the unlink call succeeds the file is gone afterwards; an unlink
failure is swallowed and the partition still completes with the same
classification. -/
theorem filter_invalid_deleted (ledger : LedgerFile) (uok : String → Bool)
    (fs : FS) (completed0 : List String) (episodes : List Episode) (ep : Episode)
    (hmem : ep ∈ episodes)
    (huniq : ∀ e2, e2 ∈ episodes → safe_filename e2 = safe_filename ep → e2 = ep)
    (hex : (fs (safe_filename ep)).isSome = true)
    (hbad : is_file_complete fs (safe_filename ep) ep = false)
    (hc0 : safe_filename ep ∉ completed0) :
    ep ∈ (filter_episodes_for_download ledger uok fs completed0 episodes false).invalid ∧
    ep ∈ (filter_episodes_for_download ledger uok fs completed0 episodes false).to_download ∧
    safe_filename ep ∉
      (filter_episodes_for_download ledger uok fs completed0 episodes false).completed ∧
    (uok (safe_filename ep) = true →
      (filter_episodes_for_download ledger uok fs completed0 episodes false).fs
        (safe_filename ep) = none) := by
  have h := filterGo_invalid_file (completedSetOf (load_resume_state ledger)) uok ep fs hex hbad
    episodes fs completed0 huniq (Or.inl rfl) hc0
  exact ⟨h.2.2.1 hmem rfl, h.2.1 hmem, h.1, fun hu => h.2.2.2 hu (Or.inl hmem)⟩

set_option maxRecDepth 40000 in
/-- C4 witness: epTwo's file holds only 3 bytes; the partition classifies
it invalid, queues it for download, leaves it out of the completed set,
and deletes the stub file. -/
theorem filter_invalid_deleted_witness :
    epTwo ∈ (filter_episodes_for_download ledgerSample (fun _ => true) fsSample []
        [epOne, epTwo] false).invalid ∧
    epTwo ∈ (filter_episodes_for_download ledgerSample (fun _ => true) fsSample []
        [epOne, epTwo] false).to_download ∧
    safe_filename epTwo ∉
      (filter_episodes_for_download ledgerSample (fun _ => true) fsSample []
        [epOne, epTwo] false).completed ∧
    ((fun _ => true) (safe_filename epTwo) = true →
      (filter_episodes_for_download ledgerSample (fun _ => true) fsSample []
        [epOne, epTwo] false).fs (safe_filename epTwo) = none) :=
  filter_invalid_deleted ledgerSample (fun _ => true) fsSample [] [epOne, epTwo] epTwo
    (by decide) (by decide) (by decide) (by decide) (by decide)

/-- C7: download_file reports false exactly when the transfer ended in a
terminal failure (request raised after its retry chain, or the body stream
broke), and in that case the destination path does not exist afterwards:
any partially written or stale file has been unlinked before returning. -/
theorem download_file_failure_cleans_dest (fs : FS) (dest : String)
    (req : Except Unit Response) :
    ((download_file fs dest req).1 = false ↔ terminalFailure req = true) ∧
    (terminalFailure req = true → (download_file fs dest req).2 dest = none) := by
  cases req with
  | error e =>
    refine ⟨by simp [download_file, terminalFailure], ?_⟩
    intro _
    simp only [download_file]
    by_cases h : (fs dest).isSome = true
    · rw [if_pos h]
      exact FS.erase_same fs dest
    · rw [if_neg h]
      exact Option.not_isSome_iff_eq_none.mp h
  | ok resp =>
    cases hs : resp.streamError with
    | false =>
      constructor
      · simp [download_file, terminalFailure, hs]
      · intro ht
        rw [terminalFailure] at ht
        rw [hs] at ht
        exact absurd ht (by simp)
    | true =>
      constructor
      · simp [download_file, terminalFailure, hs]
      · intro _
        simp only [download_file, hs, if_true]
        have hw : ((FS.insert fs dest ⟨resp.chunks.flatten, false⟩) dest).isSome = true := by
          simp [FS.insert]
        rw [if_pos hw]
        exact FS.erase_same _ dest

/-- C7 witness: a transfer whose stream breaks after one 3-byte chunk is
reported failed and leaves no file at the destination. -/
theorem download_file_failure_cleans_dest_witness :
    terminalFailure (.ok ⟨none, [[1, 2, 3]], true⟩) = true ∧
    (download_file (fun _ => none) "ep1.mp3" (.ok ⟨none, [[1, 2, 3]], true⟩)).1 = false ∧
    (download_file (fun _ => none) "ep1.mp3" (.ok ⟨none, [[1, 2, 3]], true⟩)).2 "ep1.mp3" =
      none :=
  ⟨rfl,
   (download_file_failure_cleans_dest (fun _ => none) "ep1.mp3"
      (.ok ⟨none, [[1, 2, 3]], true⟩)).1.mpr rfl,
   (download_file_failure_cleans_dest (fun _ => none) "ep1.mp3"
      (.ok ⟨none, [[1, 2, 3]], true⟩)).2 rfl⟩

/-- Core retry property of _make_request_with_retry: whatever the non-200
outcomes of the earlier attempts (retryable statuses, other error
statuses, 2xx or 3xx non-200 statuses, or connection errors), the loop
keeps attempting, and the first attempt answered 200 returns its response,
having made exactly that many attempts. -/
theorem retryGo_first_success (env : Nat → AttemptOutcome) (n : Nat) :
    ∀ (fuel attempt : Nat) (lastExc : Option RetryError) (sleeps : List Nat) (j : Nat),
      attempt + fuel = n → attempt ≤ j → j < n →
      env j = .status 200 →
      (∀ k, attempt ≤ k → k < j → env k ≠ .status 200) →
      (retryGo env n fuel attempt lastExc sleeps).outcome = .ok j ∧
      (retryGo env n fuel attempt lastExc sleeps).attempts = j + 1 := by
  intro fuel
  induction fuel with
  | zero =>
    intro attempt lastExc sleeps j hfn haj hjn h200 hne
    omega
  | succ fuel ih =>
    intro attempt lastExc sleeps j hfn haj hjn h200 hne
    by_cases heq : attempt = j
    · subst heq
      simp only [retryGo, h200, if_pos rfl]
      exact ⟨rfl, rfl⟩
    · have hlt : attempt < j := lt_of_le_of_ne haj heq
      have hne0 : env attempt ≠ .status 200 := hne attempt le_rfl hlt
      have hcond : attempt < n - 1 := by omega
      cases ha : env attempt with
      | connError =>
        simp only [retryGo, ha, if_pos hcond]
        exact ih (attempt + 1) _ _ j (by omega) (by omega) hjn h200
          (fun k hk1 hk2 => hne k (by omega) hk2)
      | status code =>
        have hc200 : ¬ code = 200 := by
          intro h
          exact hne0 (by rw [ha, h])
        simp only [retryGo, ha, if_neg hc200]
        by_cases hr : code ∈ RETRYABLE
        · rw [if_pos hr]
          exact ih (attempt + 1) _ _ j (by omega) (by omega) hjn h200
            (fun k hk1 hk2 => hne k (by omega) hk2)
        · rw [if_neg hr]
          by_cases h4 : 400 ≤ code
          · rw [if_pos h4, if_pos hcond]
            exact ih (attempt + 1) _ _ j (by omega) (by omega) hjn h200
              (fun k hk1 hk2 => hne k (by omega) hk2)
          · rw [if_neg h4]
            exact ih (attempt + 1) _ _ j (by omega) (by omega) hjn h200
              (fun k hk1 hk2 => hne k (by omega) hk2)

/-- C8 amended: every non-200 attempt outcome, including non-retryable
error statuses, is followed by a further attempt while attempts remain, so
the first attempt answered 200 determines the result: the request is
reported successful with exactly that many attempts made.  In particular
a transfer answered 503 twice and then 200 succeeds with 3 attempts. -/
theorem retry_until_first_200 (env : Nat → AttemptOutcome) (n j : Nat)
    (hjn : j < n) (h200 : env j = .status 200)
    (hbefore : ∀ k, k < j → env k ≠ .status 200) :
    (make_request_with_retry env n).outcome = .ok j ∧
    (make_request_with_retry env n).attempts = j + 1 :=
  retryGo_first_success env n n 0 none [] j (by omega) (Nat.zero_le j) hjn h200
    (fun k _ hk => hbefore k hk)

/-- C8 witness: the 503, 503, then 200 scenario succeeds on the third
attempt with exactly 3 attempts made, sleeping 1 then 2 seconds. -/
theorem retry_until_first_200_witness :
    (make_request_with_retry env503 3).outcome = .ok 2 ∧
    (make_request_with_retry env503 3).attempts = 3 ∧
    (make_request_with_retry env503 3).sleeps = [1, 2] :=
  ⟨(retry_until_first_200 env503 3 2 (by decide) (by decide)
      (fun k hk => by interval_cases k <;> decide)).1,
   (retry_until_first_200 env503 3 2 (by decide) (by decide)
      (fun k hk => by interval_cases k <;> decide)).2,
   rfl⟩

/-- C8 counterexample: a 404 on the first attempt is not terminal for the
attempt chain — raise_for_status's exception is caught by the retry
handler, a second attempt is made and its 200 is returned as success, with
2 attempts total; and the backoff after retryable statuses is the raw
2-to-the-attempt seconds with no cap (32 seconds after the sixth 503),
contradicting terminal-on-other-4xx and the cap as stated. -/
theorem retry_404_is_retried :
    (make_request_with_retry env404 3).outcome = .ok 1 ∧
    (make_request_with_retry env404 3).attempts = 2 ∧
    (make_request_with_retry env503all 6).sleeps = [1, 2, 4, 8, 16, 32] :=
  ⟨rfl, rfl, rfl⟩

end ChannelPlus
